import Mathlib

/-!
Verification of the Moon market-analysis core.

Shallow embeddings, translated from the Python sources, of:
* the analyzer's dynamic timeframe weighting (`src/services/analyze_market.py`),
* the leverage calculator (`src/services/leverage_calculator.py`),
* the RSI, Bollinger-Bands and Volume-Profile indicators
  (`src/services/indicators/`),
* the spot-analyzer entry/stop/target derivation (`analyze_spot` in
  `src/services/analyze_market.py`),
* the grid parameter derivation (`src/services/grid_analyzer.py`),

together with theorems settling the specification claims about them.

Pandas/NumPy semantics are modelled over `ℚ` (exact rational arithmetic;
a NaN cell is an `Option.none`), except for the leverage calculator whose
`math.exp` / `math.log10` / fractional `math.pow` computations are
genuinely transcendental and are modelled over `ℝ`.
-/

namespace Moon

/-- Trading timeframes supported by the analyzer: the `Timeframe` enum of
`analyze_market.py` has exactly the members `HOUR_6 = '6h'` and
`DAY_1 = '1d'`. -/
inductive Timeframe
  | hour6
  | day1
deriving DecidableEq

/-- The timeframe-category names appearing in `MarketAnalyzer`
(`base_category_weights` uses all four; `timeframe_categories` only ever
holds `medium` and `long`). -/
inductive Category
  | ultraShort
  | shortTerm
  | medium
  | long
deriving DecidableEq

/-- `MarketAnalyzer.timeframe_categories`: an association list from category
to the timeframes of that category, `{'medium': [HOUR_6], 'long': [DAY_1]}`.
The `ultra_short` and `short` categories have no entry. -/
def timeframeCategories : List (Category × List Timeframe) :=
  [(Category.medium, [Timeframe.hour6]), (Category.long, [Timeframe.day1])]

/-- `base_category_weights` of `_calculate_dynamic_weights`:
ultra-short 0.1, short 0.2, medium 0.4, long 0.3 (summing to 1). -/
def baseCategoryWeights : Category → ℚ
  | Category.ultraShort => 1/10
  | Category.shortTerm => 2/10
  | Category.medium => 4/10
  | Category.long => 3/10

/-- Number of timeframes of a category's list that are actually available
(`sum(1 for tf in tfs if tf in available_timeframes)`). -/
def categoryCount (avail : List Timeframe) (tfs : List Timeframe) : ℕ :=
  (tfs.filter (fun tf => decide (tf ∈ avail))).length

/-- `empty_categories`: the keys of `category_counts` (hence only the keys
of `timeframe_categories`) whose count is zero. -/
def emptyCategories (avail : List Timeframe) : List Category :=
  (timeframeCategories.filter (fun p => decide (categoryCount avail p.2 = 0))).map Prod.fst

/-- `remaining_categories`: the keys of `category_counts` with a positive
count. -/
def remainingCategories (avail : List Timeframe) : List Category :=
  (timeframeCategories.filter (fun p => decide (0 < categoryCount avail p.2))).map Prod.fst

/-- The category weight after the redistribution step of
`_calculate_dynamic_weights`: when some tracked category is empty its base
weight is split evenly over the remaining tracked categories. -/
def adjustedCategoryWeight (avail : List Timeframe) (c : Category) : ℚ :=
  let empty := emptyCategories avail
  let remaining := remainingCategories avail
  let extraWeight := (empty.map baseCategoryWeights).sum
  if empty ≠ [] ∧ remaining ≠ [] ∧ c ∈ remaining then
    baseCategoryWeights c + extraWeight / remaining.length
  else
    baseCategoryWeights c

/-- `_calculate_dynamic_weights`: the returned dict, as an association list.
Each available timeframe of a non-empty tracked category receives that
category's adjusted weight divided by the category's available count. -/
def dynamicWeights (avail : List Timeframe) : List (Timeframe × ℚ) :=
  (timeframeCategories.map (fun p =>
    if 0 < categoryCount avail p.2 then
      (p.2.filter (fun tf => decide (tf ∈ avail))).map
        (fun tf => (tf, adjustedCategoryWeight avail p.1 / categoryCount avail p.2))
    else [])).flatten

/-- Sum of the weights returned by `_calculate_dynamic_weights`. -/
def weightsSum (avail : List Timeframe) : ℚ :=
  ((dynamicWeights avail).map Prod.snd).sum

/-- Dictionary lookup `dynamic_weights[timeframe]` (0 if absent; in the code
every available timeframe is present). -/
def weightOf (avail : List Timeframe) (tf : Timeframe) : ℚ :=
  (((dynamicWeights avail).find? (fun p => decide (p.1 = tf))).map Prod.snd).getD 0


/-! ### Leverage calculator (`src/services/leverage_calculator.py`)

`math.exp`, `math.log10` and the fractional `math.pow` are modelled by
`Real.exp`, `Real.logb 10` and `Real.rpow`: the Python floats stand for
real numbers, so this part of the embedding is noncomputable. -/

/-- `LeverageCalculator.__init__`: the caller's desired leverage bounds
(defaults `max_leverage=8.0`, `min_leverage=4.0`). -/
structure LeverageCalculator where
  maxLeverage : ℝ
  minLeverage : ℝ

/-- `self.leverage_range = max_leverage - min_leverage`. -/
def leverageRange (lc : LeverageCalculator) : ℝ := lc.maxLeverage - lc.minLeverage

/-- `self.rank_thresholds['top']`. -/
def rankTop : ℤ := 20

/-- `self.rank_thresholds['mid']`. -/
def rankMid : ℤ := 150

/-- `self.rank_thresholds['bottom']`. -/
def rankBottom : ℤ := 500

/-- `math.log10`. -/
noncomputable def log10 (x : ℝ) : ℝ := Real.logb 10 x

/-- The clamp `rank = max(1, min(self.rank_thresholds['bottom'],
market_cap_rank))` opening `_get_rank_based_params`. -/
def rankClamped (marketCapRank : ℤ) : ℤ := max 1 (min rankBottom marketCapRank)

/-- `_get_rank_based_params`: `(normal_volatility, max_volatility, k)` for
the clamped rank; the volatility bands grow logarithmically with the rank
and `k` is the (negative) sigmoid steepness. -/
noncomputable def getRankBasedParams (marketCapRank : ℤ) : ℝ × ℝ × ℝ :=
  let rank : ℤ := rankClamped marketCapRank
  let normalVolatility : ℝ := 0.015 * (1 + log10 rank * 0.5)
  let maxVolatility : ℝ := 0.035 * (1 + log10 rank * 0.6)
  let k : ℝ :=
    if rank ≤ rankTop then -300
    else if rank ≤ rankMid then -250 + ((rank - rankTop : ℤ) : ℝ) * 1.0
    else -200 + ((rank - rankMid : ℤ) : ℝ) * 0.2
  (normalVolatility, maxVolatility, k)

open Classical in
/-- `_calculate_volatility_score`: a sigmoid of the volatility centred on
the normal band, with an exponential penalty beyond the max band. -/
noncomputable def volatilityScore (volatility : ℝ) (marketCapRank : ℤ) : ℝ :=
  let p := getRankBasedParams marketCapRank
  let score := 1 / (1 + Real.exp (p.2.2 * (volatility - p.1)))
  if p.2.1 < volatility then score * Real.exp (-5 * (volatility - p.2.1)) else score

/-- `_calculate_trend_score`: `math.pow(trend_strength, 0.7)`. -/
noncomputable def trendScore (trendStrength : ℝ) : ℝ := trendStrength ^ (0.7 : ℝ)

open Classical in
/-- `_calculate_volume_score`: `log(1 + 9 x) / log(10)`, and 0 when
`x ≤ 0`. -/
noncomputable def volumeScore (volumeStability : ℝ) : ℝ :=
  if volumeStability ≤ 0 then 0
  else Real.log (1 + 9 * volumeStability) / Real.log 10

/-- `_calculate_composite_score`: `math.prod` of the scores raised to the
weights 0.5 / 0.3 / 0.2 (a weighted geometric mean). -/
noncomputable def compositeScore (vs ts us : ℝ) : ℝ :=
  1 * vs ^ (0.5 : ℝ) * ts ^ (0.3 : ℝ) * us ^ (0.2 : ℝ)

open Classical in
/-- Python `round` to an integer: round half to even. -/
noncomputable def pyRoundInt (x : ℝ) : ℤ :=
  if Int.fract x = 1/2 then (if Even ⌊x⌋ then ⌊x⌋ else ⌊x⌋ + 1) else round x

/-- Python `round(x, d)`: round half to even at the `d`-th decimal digit
(the mathematical reading; binary floating-point representation error is
not modelled). -/
noncomputable def pyRound (d : ℕ) (x : ℝ) : ℝ := (pyRoundInt (x * 10 ^ d) : ℝ) / 10 ^ d

/-- The `risk_level` strings of `LeverageCalculator.calculate`. -/
inductive RiskLevel
  | low
  | medium
  | high
deriving DecidableEq

/-- The `score_details` dict of `LeverageCalculator.calculate` (each entry
rounded for display). -/
structure ScoreDetails where
  volatilityScoreD : ℝ
  trendScoreD : ℝ
  volumeScoreD : ℝ
  compositeScoreD : ℝ
  marketConditionMultiplierD : ℝ
  normalVolatilityD : ℝ
  maxVolatilityD : ℝ

/-- `LeverageInfo` (the human-readable `description` string is not
modelled). -/
structure LeverageInfo where
  suggestedLeverage : ℝ
  maxLeverage : ℝ
  riskLevel : RiskLevel
  scoreDetails : ScoreDetails

open Classical in
/-- `LeverageCalculator.calculate` (real division by zero is 0 where the
Python floats would raise or overflow, reachable only in the degenerate
`min_leverage = max_leverage` configuration). -/
noncomputable def calculate (lc : LeverageCalculator)
    (volatility trendStrength volumeStability : ℝ) (marketCapRank : ℤ) :
    LeverageInfo :=
  let vs := volatilityScore volatility marketCapRank
  let ts := trendScore trendStrength
  let us := volumeScore volumeStability
  let cs := compositeScore vs ts us
  let baseLeverage := lc.minLeverage + leverageRange lc * cs
  let p := getRankBasedParams marketCapRank
  let marketConditionMultiplier : ℝ :=
    if p.2.1 < volatility then 1.0 * 0.7
    else if 0.8 < trendStrength ∧ 0.7 < volumeStability then 1.0 * 1.1
    else 1.0
  let finalLeverage := baseLeverage * marketConditionMultiplier
  let clampedLeverage := max lc.minLeverage (min lc.maxLeverage finalLeverage)
  let relativeLevel := (clampedLeverage - lc.minLeverage) / leverageRange lc
  let riskLevel :=
    if relativeLevel ≤ 0.33 then RiskLevel.low
    else if relativeLevel ≤ 0.66 then RiskLevel.medium
    else RiskLevel.high
  { suggestedLeverage := pyRound 1 clampedLeverage
    maxLeverage := lc.maxLeverage
    riskLevel := riskLevel
    scoreDetails :=
      { volatilityScoreD := pyRound 3 vs
        trendScoreD := pyRound 3 ts
        volumeScoreD := pyRound 3 us
        compositeScoreD := pyRound 3 cs
        marketConditionMultiplierD := pyRound 3 marketConditionMultiplier
        normalVolatilityD := pyRound 4 p.1
        maxVolatilityD := pyRound 4 p.2.1 } }

/-! ### Shared pandas building block: exponentially weighted mean -/

/-- `Series.ewm(span=s, adjust=True).mean()` at row `t`: the weighted mean
of the first `t+1` entries with weight `(1-α)^i` on the entry `i` steps
back, `α = 2/(span+1)`. -/
def ewmAdjMean (span : ℕ) (xs : List ℚ) (t : ℕ) : ℚ :=
  let α : ℚ := 2 / (span + 1)
  ((Finset.range (t + 1)).sum fun i => (1 - α) ^ i * xs.getD (t - i) 0) /
    ((Finset.range (t + 1)).sum fun i => (1 - α) ^ i)

/-! ### RSI (`src/services/indicators/rsi.py`) -/

/-- `delta = close.diff()`: `none` at row 0 (pandas NaN). -/
def diffAt (closes : List ℚ) (t : ℕ) : Option ℚ :=
  if t = 0 then none else some (closes.getD t 0 - closes.getD (t - 1) 0)

/-- `gain = delta.where(delta > 0, 0)`: the NaN at row 0 compares as not
greater than 0, so it also becomes 0. -/
def gainAt (closes : List ℚ) (t : ℕ) : ℚ :=
  match diffAt closes t with
  | some d => if 0 < d then d else 0
  | none => 0

/-- `loss = -delta.where(delta < 0, 0)`. -/
def lossAt (closes : List ℚ) (t : ℕ) : ℚ :=
  match diffAt closes t with
  | some d => if d < 0 then -d else 0
  | none => 0

/-- The gain series as a list (one entry per row of the frame). -/
def gainCol (closes : List ℚ) : List ℚ :=
  (List.range closes.length).map (gainAt closes)

/-- The loss series as a list. -/
def lossCol (closes : List ℚ) : List ℚ :=
  (List.range closes.length).map (lossAt closes)

/-- `avg_gain = gain.ewm(span=period, min_periods=period).mean()`: NaN
(`none`) until `period` observations have been seen. -/
def avgGain (period : ℕ) (closes : List ℚ) (t : ℕ) : Option ℚ :=
  if period ≤ t + 1 ∧ t < closes.length then some (ewmAdjMean period (gainCol closes) t)
  else none

/-- `avg_loss = loss.ewm(span=period, min_periods=period).mean()`. -/
def avgLoss (period : ℕ) (closes : List ℚ) (t : ℕ) : Option ℚ :=
  if period ≤ t + 1 ∧ t < closes.length then some (ewmAdjMean period (lossCol closes) t)
  else none

/-- The `rsi` column of `RSI.calculate`: `rs = avg_gain / avg_loss` where a
zero `avg_loss` is first replaced by infinity (`rs = 0`, hence a raw rsi of
`100 - 100/(1+0)`), then `rsi = 100 - 100/(1+rs)`, and finally the
edge-case overrides in source order: rows with `avg_gain == 0` are set to 0
and afterwards rows with `avg_loss == 0` are set to 100, so the loss rule
wins when both averages are zero. -/
def rsiAt (period : ℕ) (closes : List ℚ) (t : ℕ) : Option ℚ :=
  match avgGain period closes t, avgLoss period closes t with
  | some g, some l =>
      let raw := if l = 0 then (100 : ℚ) - 100 / (1 + 0) else 100 - 100 / (1 + g / l)
      let afterGainRule := if g = 0 then 0 else raw
      some (if l = 0 then 100 else afterGainRule)
  | _, _ => none

/-! ### Bollinger Bands (`src/services/indicators/bollinger_bands.py`)

The rolling standard deviation is the square root of the rolling sample
variance and is irrational in general, so the frame's rolling-std column
enters the embedding as a parameter `std : ℕ → Option ℚ`; the theorems
below hold for every column whose defined entries are nonnegative and
square to the rolling variance, which the real square root satisfies
(pandas leaves the size-one window at row 0 as NaN, here `none`).
Everything downstream of that column — the ewm middle band, the bands and
the `%B` computation with its zero-replacement, NaN fallback and clamping —
is translated directly. -/

/-- The window of closes feeding `rolling(window=period,
min_periods=1).std()` at row `t`: the last `min(t+1, period)` closes. -/
def rollingWindow (period : ℕ) (closes : List ℚ) (t : ℕ) : List ℚ :=
  (closes.take (t + 1)).drop (t + 1 - period)

/-- Mean of a list (0 for the empty list). -/
def listMean (xs : List ℚ) : ℚ := xs.sum / xs.length

/-- Rolling sample variance (`ddof = 1`) at row `t`; 0 stands in for the
NaN pandas produces when the window holds fewer than two samples. -/
def rollingVariance (period : ℕ) (closes : List ℚ) (t : ℕ) : ℚ :=
  let w := rollingWindow period closes t
  let m := listMean w
  if 2 ≤ w.length then (w.map (fun x => (x - m) ^ 2)).sum / ((w.length : ℚ) - 1) else 0

/-- `bb_middle = close.ewm(span=period, min_periods=1).mean()`. -/
def bbMiddle (period : ℕ) (closes : List ℚ) (t : ℕ) : ℚ := ewmAdjMean period closes t

/-- `bb_upper = bb_middle + rolling_std * num_std`. -/
def bbUpper (period : ℕ) (numStd : ℚ) (closes : List ℚ) (std : ℕ → Option ℚ) (t : ℕ) :
    Option ℚ :=
  (std t).map fun s => bbMiddle period closes t + s * numStd

/-- `bb_lower = bb_middle - rolling_std * num_std`. -/
def bbLower (period : ℕ) (numStd : ℚ) (closes : List ℚ) (std : ℕ → Option ℚ) (t : ℕ) :
    Option ℚ :=
  (std t).map fun s => bbMiddle period closes t - s * numStd

/-- `bb_diff = bb_upper - bb_lower` (NaN when the std is NaN). -/
def bbDiff (period : ℕ) (numStd : ℚ) (closes : List ℚ) (std : ℕ → Option ℚ) (t : ℕ) :
    Option ℚ :=
  match bbUpper period numStd closes std t, bbLower period numStd closes std t with
  | some u, some l => some (u - l)
  | _, _ => none

/-- The `bb_percent_b` column of `BollingerBands.calculate`:
`(close - bb_lower) / band_range` where `band_range` is `bb_diff` with
zeros replaced by NaN; rows whose `band_range` is NaN (collapsed bands or
the NaN std of row 0) are then set to 0.5, and finally values above 1 are
cut to 1 and values below 0 to 0. -/
def bbPercentB (period : ℕ) (numStd : ℚ) (closes : List ℚ) (std : ℕ → Option ℚ) (t : ℕ) :
    ℚ :=
  match std t with
  | none => 1/2
  | some s =>
      let lower := bbMiddle period closes t - s * numStd
      let upper := bbMiddle period closes t + s * numStd
      let d := upper - lower
      if d = 0 then 1/2
      else max 0 (min 1 ((closes.getD t 0 - lower) / d))

/-! ### Volume Profile (`src/services/indicators/volume_profile.py`) -/

/-- One OHLCV row (only the fields the indicators read). -/
structure Bar where
  high : ℚ
  low : ℚ
  close : ℚ
  volume : ℚ
deriving DecidableEq

/-- A data frame: the list of rows. -/
abbrev Frame := List Bar

/-- `price_low = df['low'].min()` (0 on an empty frame, where pandas
yields NaN). -/
def priceLow (f : Frame) : ℚ :=
  match f.map Bar.low with
  | [] => 0
  | x :: xs => xs.foldl min x

/-- `price_high = df['high'].max()`. -/
def priceHigh (f : Frame) : ℚ :=
  match f.map Bar.high with
  | [] => 0
  | x :: xs => xs.foldl max x

/-- `price_range`, floored at `1e-10` so it is never zero. -/
def priceRangeAdj (f : Frame) : ℚ :=
  let r := priceHigh f - priceLow f
  if r < 1/10^10 then 1/10^10 else r

/-- `bin_size = price_range / n_bins`. -/
def binSize (f : Frame) (nBins : ℕ) : ℚ := priceRangeAdj f / nBins

/-- NumPy `astype(int)`: truncation toward zero. -/
def ratTrunc (q : ℚ) : ℤ := if 0 ≤ q then ⌊q⌋ else ⌈q⌉

/-- `price_bin = ((close - price_low) / bin_size).astype(int)`, clipped
into `[0, n_bins - 1]`. -/
def binOf (f : Frame) (nBins : ℕ) (b : Bar) : ℤ :=
  max 0 (min ((nBins : ℤ) - 1) (ratTrunc ((b.close - priceLow f) / binSize f nBins)))

/-- Total volume of the rows of `l` landing in bin `i`, the bins being
computed against the whole frame `f`. -/
def binVolumeAux (f : Frame) (nBins : ℕ) (l : List Bar) (i : ℤ) : ℚ :=
  (l.map fun b => if binOf f nBins b = i then b.volume else 0).sum

/-- `volume_profile.get(i, 0)`: the summed volume of bin `i` (0 when no
row lands there). -/
def binVolume (f : Frame) (nBins : ℕ) (i : ℤ) : ℚ := binVolumeAux f nBins f i

/-- `total_volume = volume_profile.sum()`; every row lands in exactly one
bin, so this equals the row-wise total (`totalVolume_eq_sum_bins` below). -/
def totalVolume (f : Frame) : ℚ := (f.map Bar.volume).sum

/-- The bin indices `0 .. n_bins - 1`. -/
def binIndices (nBins : ℕ) : List ℤ := (List.range nBins).map Int.ofNat

/-- `volume_profile.max()`, taken over all bins (a bin no row lands in
weighs 0; with nonnegative volumes and a positive total this agrees with
the pandas maximum over the occupied bins). -/
def maxBinVolume (f : Frame) (nBins : ℕ) : ℚ :=
  ((binIndices nBins).map (binVolume f nBins)).foldr max 0

/-- `poc_bin = volume_profile.idxmax()`: the first bin attaining the
maximal volume (groupby keys are sorted ascending and `idxmax` returns the
first maximiser; when the maximum is positive, restricting to occupied
bins changes nothing). -/
def pocBin (f : Frame) (nBins : ℕ) : ℤ :=
  ((binIndices nBins).filter fun i =>
    decide (binVolume f nBins i = maxBinVolume f nBins)).headD 0

/-- `poc_price`: the degenerate no-volume case falls back to the midpoint,
otherwise the centre of the POC bin. -/
def pocPrice (f : Frame) (nBins : ℕ) : ℚ :=
  if f = [] ∨ maxBinVolume f nBins = 0 then (priceHigh f + priceLow f) / 2
  else priceLow f + ((pocBin f nBins : ℚ) + 1/2) * binSize f nBins

/-- The value-area expansion loop of `VolumeProfile.calculate`, with
explicit fuel (`n_bins` steps always suffice: every iteration either moves
`above` up, staying below `n_bins`, or moves `below` down, staying at
least 0, or returns).  The state is `(above_bin, below_bin, volume_sum)`
and the loop runs `while volume_sum < target`. -/
def vaLoop (f : Frame) (nBins : ℕ) (target : ℚ) :
    ℕ → ℤ → ℤ → ℚ → ℤ × ℤ × ℚ
  | 0, above, below, s => (above, below, s)
  | fuel + 1, above, below, s =>
      if s < target then
        if binVolume f nBins (below - 1) < binVolume f nBins (above + 1) ∧
            above + 1 < (nBins : ℤ) then
          vaLoop f nBins target fuel (above + 1) below
            (s + binVolume f nBins (above + 1))
        else if 0 ≤ below - 1 then
          vaLoop f nBins target fuel above (below - 1)
            (s + binVolume f nBins (below - 1))
        else (above, below, s)
      else (above, below, s)

/-- The value area computed by `VolumeProfile.calculate` on the
positive-total-volume path: start at the POC bin with its volume and
expand until 70% of the total volume is reached (or the loop breaks).
Returns `(va_high_bin, va_low_bin, volume_sum)`. -/
def valueArea (f : Frame) (nBins : ℕ) : ℤ × ℤ × ℚ :=
  let poc := pocBin f nBins
  vaLoop f nBins (7/10 * totalVolume f) nBins poc poc (binVolume f nBins poc)

/-- `va_high = price_low + (va_high_bin + 1) * bin_size`. -/
def vaHigh (f : Frame) (nBins : ℕ) : ℚ :=
  priceLow f + (((valueArea f nBins).1 : ℚ) + 1) * binSize f nBins

/-- `va_low = price_low + va_low_bin * bin_size`. -/
def vaLow (f : Frame) (nBins : ℕ) : ℚ :=
  priceLow f + ((valueArea f nBins).2.1 : ℚ) * binSize f nBins

/-- The two-row frame of the C5 counterexample: lows 0 and highs 4 put the
bin width at 1 (4 bins); the first row (close 0.5, volume 10) lands in bin
0 and the second (close 3.5, volume 9) in bin 3. -/
def vaFrameC : Frame := [⟨4, 0, 1/2, 10⟩, ⟨4, 0, 7/2, 9⟩]

/-- The loop invariant carried through `vaLoop`: the returned window
extends `[below, above]`, stays inside the bins, its `volume_sum` is the
summed volume of its bins, and either the 70% target was reached or the
loop stopped with the lower edge at bin 0 and an empty bin above the upper
edge. -/
def vaInv (f : Frame) (nBins : ℕ) (target : ℚ) (above below : ℤ)
    (r : ℤ × ℤ × ℚ) : Prop :=
  (r.2.1 ≤ below ∧ above ≤ r.1) ∧
  (0 ≤ r.2.1 ∧ r.2.1 ≤ r.1 ∧ r.1 ≤ (nBins : ℤ) - 1) ∧
  r.2.2 = (Finset.Icc r.2.1 r.1).sum (binVolume f nBins) ∧
  (target ≤ r.2.2 ∨ (r.2.1 = 0 ∧ binVolume f nBins (r.1 + 1) = 0))

/-! ### ATR (`src/services/indicators/atr.py`) and the price fields of
`MarketAnalyzer.analyze_spot` (`src/services/analyze_market.py`)

`analyze_spot` always emits a `TradeSignal` — there is no confidence-based
rejection, no positivity/epsilon guard and no expected-return computation:
`entry_price` is the latest close of the selected price timeframe,
`stop_loss = entry - atr * 2` and `take_profit = entry + atr * 3` with
`atr` the weighted ATR.  The confidence and market-status bookkeeping of
the surrounding method never touches these three fields and is not
modelled. -/

/-- The true range at row `t`: `max(high - low, |high - prev_close|,
|low - prev_close|)`, the shifted close falling back to the row's own
high resp. low at row 0 (`shift().fillna(...)`). -/
def trueRangeAt (f : Frame) (t : ℕ) : ℚ :=
  let b := f.getD t ⟨0, 0, 0, 0⟩
  match t with
  | 0 => max (b.high - b.low) (max |b.high - b.high| |b.low - b.low|)
  | t' + 1 =>
      let pc := (f.getD t' ⟨0, 0, 0, 0⟩).close
      max (b.high - b.low) (max |b.high - pc| |b.low - pc|)

/-- The `atr` column: `true_range.ewm(span=period, min_periods=1).mean()`. -/
def atrAt (period : ℕ) (f : Frame) (t : ℕ) : ℚ :=
  ewmAdjMean period ((List.range f.length).map (trueRangeAt f)) t

/-- `df.iloc[-1]['atr']` for the analyzer's `ATR(14)`. -/
def atrLast (f : Frame) : ℚ := atrAt 14 f (f.length - 1)

/-- `_get_timeframe_multiplier`: 18.974 for 6h, 24.495 for 1d. -/
def timeframeMultiplier : Timeframe → ℚ
  | Timeframe.hour6 => 18974/1000
  | Timeframe.day1 => 24495/1000

/-- The analyzer's input `timeframe_data`: one optional frame per
supported timeframe. -/
structure TimeframeData where
  h6 : Option Frame
  d1 : Option Frame

/-- `list(timeframe_data.keys())`. -/
def availableTimeframes (d : TimeframeData) : List Timeframe :=
  (if d.h6.isSome then [Timeframe.hour6] else []) ++
    (if d.d1.isSome then [Timeframe.day1] else [])

/-- Frame lookup `timeframe_data[tf]`. -/
def frameOf (d : TimeframeData) : Timeframe → Option Frame
  | Timeframe.hour6 => d.h6
  | Timeframe.day1 => d.d1

/-- `_select_price_timeframe`: 6h first, then 1d, then the head of the
list (unreachable for a non-empty input). -/
def selectPriceTimeframe (avail : List Timeframe) : Timeframe :=
  if Timeframe.hour6 ∈ avail then Timeframe.hour6
  else if Timeframe.day1 ∈ avail then Timeframe.day1
  else avail.headD Timeframe.hour6

/-- `_calculate_weighted_atr`: the sum of `atr * weight * multiplier` over
the supplied frames, divided by the summed weights (0 when they vanish). -/
def weightedAtr (d : TimeframeData) : ℚ :=
  let avail := availableTimeframes d
  let wsum := (avail.map fun tf => weightOf avail tf).sum
  let asum := (avail.map fun tf =>
    match frameOf d tf with
    | some f => atrLast f * weightOf avail tf * timeframeMultiplier tf
    | none => 0).sum
  if 0 < wsum then asum / wsum else 0

/-- `df.iloc[-1]['close']`. -/
def lastClose (f : Frame) : ℚ := (f.getLastD ⟨0, 0, 0, 0⟩).close

/-- `latest_price = timeframe_data[price_timeframe].iloc[-1]['close']`
(the selected timeframe is always present, so the `none` arm is dead). -/
def spotLatestPrice (d : TimeframeData) : ℚ :=
  match frameOf d (selectPriceTimeframe (availableTimeframes d)) with
  | some f => lastClose f
  | none => 0

/-- The `(entry_price, stop_loss, take_profit)` fields of the
`TradeSignal` returned by `analyze_spot`; `none` models the `ValueError`
raised on an empty input.  On frames long enough for the method's fixed
lookbacks (five bars suffice) no other abort occurs and a signal is always
emitted — there is no confidence- or guard-based rejection. -/
def analyzeSpotPrices (d : TimeframeData) : Option (ℚ × ℚ × ℚ) :=
  if availableTimeframes d = [] then none
  else
    some (spotLatestPrice d, spotLatestPrice d - weightedAtr d * 2,
      spotLatestPrice d + weightedAtr d * 3)

/-- A five-bar all-flat frame (long enough for every lookback
`analyze_spot` performs on the way to its result). -/
def flatFrame : Frame :=
  [⟨1, 1, 1, 1⟩, ⟨1, 1, 1, 1⟩, ⟨1, 1, 1, 1⟩, ⟨1, 1, 1, 1⟩, ⟨1, 1, 1, 1⟩]

/-! ### Grid analyzer (`src/services/grid_analyzer.py`) -/

/-- A row of the frame `get_grid_parameters` reads: OHLC plus the already
computed `rsi` (NaN, i.e. `none`, during warm-up) and `atr` columns. -/
structure GridRow where
  high : ℚ
  low : ℚ
  close : ℚ
  rsi : Option ℚ
  atr : ℚ

/-- `series.tail(k)`: the last `min(k, len)` entries. -/
def tailList {α : Type} (k : ℕ) (xs : List α) : List α := xs.drop (xs.length - k)

/-- pandas `Series.mean()` over the non-NaN entries (0 stands in for the
NaN that an all-NaN series would give; in the source that NaN later makes
`int(...)` raise, a run C10's success hypothesis excludes). -/
def nanMean (xs : List (Option ℚ)) : ℚ := listMean (xs.filterMap id)

/-- max of a list (0 for the empty list). -/
def listMax (xs : List ℚ) : ℚ :=
  match xs with
  | [] => 0
  | x :: rest => rest.foldl max x

/-- min of a list (0 for the empty list). -/
def listMin (xs : List ℚ) : ℚ :=
  match xs with
  | [] => 0
  | x :: rest => rest.foldl min x

/-- `rolling(w).max()` at row `t` (only used at `t ≥ w - 1`). -/
def rollingMaxAt (xs : List ℚ) (w t : ℕ) : ℚ := listMax ((xs.take (t + 1)).drop (t + 1 - w))

/-- `rolling(w).min()` at row `t`. -/
def rollingMinAt (xs : List ℚ) (w t : ℕ) : ℚ := listMin ((xs.take (t + 1)).drop (t + 1 - w))

/-- One entry of `(price_changes / price_paths).fillna(0)`:
`price_changes = abs(close.diff(20))` (NaN before row 20),
`price_paths = high.rolling(20).max() - low.rolling(20).min()` with zeros
replaced by infinity (so the quotient collapses to 0), and NaN anywhere
becomes 0. -/
def effAt (df : List GridRow) (t : ℕ) : ℚ :=
  if 20 ≤ t then
    let closes := df.map GridRow.close
    let c := |closes.getD t 0 - closes.getD (t - 20) 0|
    let p := rollingMaxAt (df.map GridRow.high) 20 t - rollingMinAt (df.map GridRow.low) 20 t
    if p = 0 then 0 else c / p
  else 0

/-- `abs(close.diff())` without its leading NaN: one entry per consecutive
pair of closes. -/
def absDiffs (xs : List ℚ) : List ℚ := (xs.zip xs.tail).map fun p => |p.2 - p.1|

/-- `GridAnalyzer.get_grid_parameters`: `(upper_price, lower_price,
grid_number)`. -/
def getGridParameters (df : List GridRow) : ℚ × ℚ × ℤ :=
  let closes := df.map GridRow.close
  let currentPrice := closes.getLastD 0
  let efficiency := listMean (tailList 20 ((List.range df.length).map (effAt df)))
  let rsiDeviation := |nanMean (tailList 20 (df.map GridRow.rsi)) - 50| / 50
  let trendStrength := rsiDeviation * efficiency
  let recentVolatility := max (listMean (tailList 20 (df.map GridRow.atr)) / currentPrice) (1/100)
  let priceRange := max (currentPrice * recentVolatility * (1 + trendStrength) * 2)
    (currentPrice * (2/100))
  let rsiLastAbove50 : Bool :=
    match (df.map GridRow.rsi).getLastD none with
    | some x => decide (50 < x)
    | none => false
  let ul : ℚ × ℚ :=
    if 3/10 < trendStrength then
      if rsiLastAbove50 then
        (currentPrice * (1 + priceRange * (6/10)), currentPrice * (1 - priceRange * (4/10)))
      else
        (currentPrice * (1 + priceRange * (4/10)), currentPrice * (1 - priceRange * (6/10)))
    else
      (currentPrice * (1 + priceRange / 2), currentPrice * (1 - priceRange / 2))
  let volatilityFactor := min (recentVolatility * 100) 1
  let baseGridNumber : ℤ := ratTrunc (20 * (1 + volatilityFactor))
  let gridModifier : ℚ :=
    if 7/10 < efficiency then 13/10 else if efficiency < 3/10 then 7/10 else 1
  let gridNumber : ℤ := max (ratTrunc ((baseGridNumber : ℚ) * gridModifier)) 4
  let minPriceMovement :=
    if absDiffs closes = [] then currentPrice * (1/1000)
    else max (listMean (absDiffs closes)) (currentPrice * (1/1000))
  let minGridSize := minPriceMovement * 3
  let maxGridsByRange : ℤ := max (ratTrunc ((ul.1 - ul.2) / minGridSize)) 4
  (ul.1, ul.2, min gridNumber maxGridsByRange)

/-! ## Theorems -/

/-- Claim C4: the per-timeframe weights computed by
`_calculate_dynamic_weights` are claimed to sum to exactly 1 for every
non-empty subset of the supported timeframes.  They do not: for all three
non-empty subsets of `{HOUR_6, DAY_1}` the weights sum to 0.7, because the
0.1 + 0.2 base weight of the `ultra_short` and `short` categories is never
redistributed (`category_counts` only ranges over the keys of
`timeframe_categories`, which lacks those two categories). -/
theorem dynamicWeights_sum_seven_tenths :
    weightsSum [Timeframe.hour6, Timeframe.day1] = 7/10 ∧
    weightsSum [Timeframe.hour6] = 7/10 ∧
    weightsSum [Timeframe.day1] = 7/10 ∧ (7/10 : ℚ) ≠ 1 := by
  refine ⟨?_, ?_, ?_, by norm_num⟩ <;>
    · simp +decide [weightsSum, dynamicWeights, adjustedCategoryWeight, emptyCategories,
        remainingCategories, categoryCount, timeframeCategories, baseCategoryWeights]
      norm_num

/-- Rounding half to even never goes below the floor. -/
theorem floor_le_pyRoundInt (x : ℝ) : ⌊x⌋ ≤ pyRoundInt x := by
  unfold pyRoundInt
  split
  · split
    · exact le_refl _
    · exact le_of_lt (Int.lt_succ _)
  · rw [round_eq]
    exact Int.floor_le_floor (by linarith)

/-- Rounding half to even never goes above the ceiling. -/
theorem pyRoundInt_le_ceil (x : ℝ) : pyRoundInt x ≤ ⌈x⌉ := by
  unfold pyRoundInt
  split
  · rename_i hfr
    have hlt : ⌊x⌋ < ⌈x⌉ := by
      rw [Int.lt_ceil]
      have hfl : x - ⌊x⌋ = 1/2 := by
        rw [Int.self_sub_floor]
        exact hfr
      linarith
    split
    · exact le_of_lt hlt
    · omega
  · rw [round_eq]
    have h2 : ⌊x + 1/2⌋ < ⌈x⌉ + 1 := by
      have h3 : x + 1/2 < ((⌈x⌉ + 1 : ℤ) : ℝ) := by
        have := Int.le_ceil x
        push_cast
        linarith
      exact Int.floor_lt.mpr h3
    omega

/-- An exact rounding to one decimal stays inside integer-tenth bounds. -/
theorem pyRound_one_mem (m M : ℤ) (y : ℝ) (h1 : (m : ℝ)/10 ≤ y) (h2 : y ≤ (M : ℝ)/10) :
    (m : ℝ)/10 ≤ pyRound 1 y ∧ pyRound 1 y ≤ (M : ℝ)/10 := by
  have hm : m ≤ pyRoundInt (y * 10) := by
    refine le_trans (Int.le_floor.mpr ?_) (floor_le_pyRoundInt _)
    push_cast
    linarith
  have hM : pyRoundInt (y * 10) ≤ M := by
    refine le_trans (pyRoundInt_le_ceil _) (Int.ceil_le.mpr ?_)
    push_cast
    linarith
  have hmr : (m : ℝ) ≤ pyRoundInt (y * 10) := by exact_mod_cast hm
  have hMr : (pyRoundInt (y * 10) : ℝ) ≤ M := by exact_mod_cast hM
  unfold pyRound
  have e : ((10 : ℝ) ^ (1 : ℕ)) = 10 := by norm_num
  rw [e]
  constructor
  · exact (div_le_div_iff_of_pos_right (by norm_num)).mpr hmr
  · exact (div_le_div_iff_of_pos_right (by norm_num)).mpr hMr

/-- Claim C1: for every finite non-negative volatility, every trend
strength in [0,1], every volume stability in [0,1] and every market-cap
rank, the `suggested_leverage` returned by `LeverageCalculator.calculate`
lies within `[min_leverage, max_leverage]`, including after the final
one-decimal rounding (stated for bounds expressible on the caller's
one-decimal granularity, as the defaults 4.0 and 8.0 are). -/
theorem calculate_suggested_in_range (lc : LeverageCalculator) (m M : ℤ)
    (hm : lc.minLeverage = (m : ℝ) / 10) (hM : lc.maxLeverage = (M : ℝ) / 10)
    (hle : lc.minLeverage ≤ lc.maxLeverage)
    (volatility trendStrength volumeStability : ℝ) (marketCapRank : ℤ)
    (hv : 0 ≤ volatility) (ht0 : 0 ≤ trendStrength) (ht1 : trendStrength ≤ 1)
    (hu0 : 0 ≤ volumeStability) (hu1 : volumeStability ≤ 1) :
    lc.minLeverage ≤
        (calculate lc volatility trendStrength volumeStability marketCapRank).suggestedLeverage ∧
      (calculate lc volatility trendStrength volumeStability marketCapRank).suggestedLeverage ≤
        lc.maxLeverage := by
  have key : ∀ F : ℝ,
      lc.minLeverage ≤ pyRound 1 (max lc.minLeverage (min lc.maxLeverage F)) ∧
        pyRound 1 (max lc.minLeverage (min lc.maxLeverage F)) ≤ lc.maxLeverage := by
    intro F
    have h1 : lc.minLeverage ≤ max lc.minLeverage (min lc.maxLeverage F) :=
      le_max_left _ _
    have h2 : max lc.minLeverage (min lc.maxLeverage F) ≤ lc.maxLeverage :=
      max_le hle (min_le_left _ _)
    rw [hm, hM] at h1 h2 ⊢
    exact pyRound_one_mem m M _ h1 h2
  simpa only [calculate] using key _

/-- Witness for C1 at the default calculator and a concrete input. -/
theorem calculate_suggested_in_range_witness :
    (⟨8, 4⟩ : LeverageCalculator).minLeverage ≤
        (calculate ⟨8, 4⟩ 0.01 0.8 0.7 1).suggestedLeverage ∧
      (calculate ⟨8, 4⟩ 0.01 0.8 0.7 1).suggestedLeverage ≤
        (⟨8, 4⟩ : LeverageCalculator).maxLeverage :=
  calculate_suggested_in_range ⟨8, 4⟩ 40 80 (by norm_num) (by norm_num) (by norm_num)
    0.01 0.8 0.7 1 (by norm_num) (by norm_num) (by norm_num) (by norm_num) (by norm_num)


/-- Claim C2 (code bug): holding trend strength and volume stability fixed,
the spec claims increasing volatility beyond the normal band never
increases the suggested leverage.  In the code the sigmoid steepness `k`
returned by `_get_rank_based_params` is negative (−300 at rank 1), so up to
the max-volatility band the volatility score `1/(1+exp(k·(v−normal)))` is
strictly increasing in the volatility: at rank 1 the bands are
`[0.015, 0.035]` and the score at volatility 0.03 exceeds the score at
volatility 0.02, both above the normal band — contradicting the claim and
the function's own docstring (low volatility should score high). -/
theorem volatilityScore_increasing_above_normal_band :
    (getRankBasedParams 1).1 < 0.02 ∧ (0.03 : ℝ) ≤ (getRankBasedParams 1).2.1 ∧
      volatilityScore 0.02 1 < volatilityScore 0.03 1 := by
  have hclamp : rankClamped 1 = 1 := by decide
  have hp : getRankBasedParams 1 = (0.015, 0.035, -300) := by
    simp only [getRankBasedParams, hclamp, log10, rankTop]
    norm_num [Real.logb_one]
  have h1 : volatilityScore 0.02 1 = 1 / (1 + Real.exp (-(1.5 : ℝ))) := by
    simp only [volatilityScore, hp]
    norm_num
  have h2 : volatilityScore 0.03 1 = 1 / (1 + Real.exp (-(4.5 : ℝ))) := by
    simp only [volatilityScore, hp]
    norm_num
  refine ⟨by rw [hp]; norm_num, by rw [hp]; norm_num, ?_⟩
  rw [h1, h2]
  have hexp : Real.exp (-(4.5 : ℝ)) < Real.exp (-(1.5 : ℝ)) :=
    Real.exp_lt_exp.mpr (by norm_num)
  have hpos : (0 : ℝ) < 1 + Real.exp (-(4.5 : ℝ)) := by positivity
  exact div_lt_div_of_pos_left (by norm_num) hpos (by linarith)

/-- The market-cap rank only enters `calculate` through
`_get_rank_based_params`. -/
theorem calculate_congr_rank (lc : LeverageCalculator) (v t u : ℝ) (r s : ℤ)
    (h : getRankBasedParams r = getRankBasedParams s) :
    calculate lc v t u r = calculate lc v t u s := by
  simp only [calculate, volatilityScore, h]

/-- Claim C9: `LeverageCalculator` clamps the market-cap rank into
`[1, 500]` before deriving the volatility bands and sigmoid steepness, so
any rank below 1 yields the same `_get_rank_based_params` output and the
same `calculate` output as rank 1, and any rank above 500 the same as
rank 500 (all other inputs held fixed). -/
theorem rank_clamped_into_range (lc : LeverageCalculator) (v t u : ℝ) (r : ℤ) :
    (r ≤ 1 → getRankBasedParams r = getRankBasedParams 1 ∧
      calculate lc v t u r = calculate lc v t u 1) ∧
    (500 ≤ r → getRankBasedParams r = getRankBasedParams 500 ∧
      calculate lc v t u r = calculate lc v t u 500) := by
  have key : ∀ s : ℤ, rankClamped r = rankClamped s →
      getRankBasedParams r = getRankBasedParams s := by
    intro s h
    simp only [getRankBasedParams, h]
  constructor
  · intro hr
    have h : rankClamped r = rankClamped 1 := by
      unfold rankClamped rankBottom
      omega
    exact ⟨key 1 h, calculate_congr_rank lc v t u r 1 (key 1 h)⟩
  · intro hr
    have h : rankClamped r = rankClamped 500 := by
      unfold rankClamped rankBottom
      omega
    exact ⟨key 500 h, calculate_congr_rank lc v t u r 500 (key 500 h)⟩

/-- Witness for C9: rank 0 behaves as rank 1 and rank 600 as rank 500 on
the default calculator. -/
theorem rank_clamped_into_range_witness :
    (getRankBasedParams 0 = getRankBasedParams 1 ∧
      calculate ⟨8, 4⟩ 0.02 0.5 0.5 0 = calculate ⟨8, 4⟩ 0.02 0.5 0.5 1) ∧
    (getRankBasedParams 600 = getRankBasedParams 500 ∧
      calculate ⟨8, 4⟩ 0.02 0.5 0.5 600 = calculate ⟨8, 4⟩ 0.02 0.5 0.5 500) :=
  ⟨(rank_clamped_into_range ⟨8, 4⟩ 0.02 0.5 0.5 0).1 (by norm_num),
   (rank_clamped_into_range ⟨8, 4⟩ 0.02 0.5 0.5 600).2 (by norm_num)⟩


/-- Every entry read out of a nonnegative list (with default 0) is
nonnegative. -/
theorem getD_nonneg (xs : List ℚ) (h : ∀ x ∈ xs, 0 ≤ x) (j : ℕ) : 0 ≤ xs.getD j 0 := by
  rcases Nat.lt_or_ge j xs.length with hj | hj
  · rw [List.getD_eq_getElem xs 0 hj]
    exact h _ (List.getElem_mem hj)
  · rw [List.getD_eq_default xs 0 hj]

/-- The adjusted exponentially weighted mean of a nonnegative series is
nonnegative (for a span of at least 1, so that `1 - α ≥ 0`). -/
theorem ewmAdjMean_nonneg (span : ℕ) (hs : 1 ≤ span) (xs : List ℚ)
    (h : ∀ x ∈ xs, 0 ≤ x) (t : ℕ) : 0 ≤ ewmAdjMean span xs t := by
  have hα : (0 : ℚ) ≤ 1 - 2 / (span + 1) := by
    have h2 : (2 : ℚ) ≤ span + 1 := by
      have : (1 : ℚ) ≤ span := by exact_mod_cast hs
      linarith
    have hpos : (0 : ℚ) < span + 1 := by positivity
    rw [sub_nonneg, div_le_one hpos]
    exact h2
  unfold ewmAdjMean
  apply div_nonneg
  · apply Finset.sum_nonneg
    intro i _
    exact mul_nonneg (pow_nonneg hα i) (getD_nonneg xs h _)
  · apply Finset.sum_nonneg
    intro i _
    exact pow_nonneg hα i

/-- The adjusted exponentially weighted mean of an all-zero series is 0. -/
theorem ewmAdjMean_zero (span : ℕ) (xs : List ℚ) (h : ∀ j, xs.getD j 0 = 0) (t : ℕ) :
    ewmAdjMean span xs t = 0 := by
  have hnum : ((Finset.range (t + 1)).sum fun i => (1 - 2 / ((span : ℚ) + 1)) ^ i * xs.getD (t - i) 0) = 0 := by
    apply Finset.sum_eq_zero
    intro i _
    rw [h (t - i), mul_zero]
  simp only [ewmAdjMean]
  rw [hnum, zero_div]

/-- Gains are nonnegative. -/
theorem gainAt_nonneg (closes : List ℚ) (t : ℕ) : 0 ≤ gainAt closes t := by
  unfold gainAt
  cases diffAt closes t with
  | none => exact le_refl 0
  | some d =>
      simp only
      split
      · linarith [‹0 < d›]
      · exact le_refl 0

/-- Losses are nonnegative. -/
theorem lossAt_nonneg (closes : List ℚ) (t : ℕ) : 0 ≤ lossAt closes t := by
  unfold lossAt
  cases diffAt closes t with
  | none => exact le_refl 0
  | some d =>
      simp only
      split
      · linarith [‹d < 0›]
      · exact le_refl 0

/-- A row whose average loss is zero gets `rsi = 100`: the
`avg_loss == 0` override is the last assignment. -/
theorem rsiAt_of_avgLoss_zero (period : ℕ) (closes : List ℚ) (t : ℕ)
    (h : avgLoss period closes t = some 0) : rsiAt period closes t = some 100 := by
  by_cases hc : period ≤ t + 1 ∧ t < closes.length
  · have hG : avgGain period closes t = some (ewmAdjMean period (gainCol closes) t) := by
      unfold avgGain
      rw [if_pos hc]
    have hL : avgLoss period closes t = some (ewmAdjMean period (lossCol closes) t) := by
      unfold avgLoss
      rw [if_pos hc]
    have hl0 : ewmAdjMean period (lossCol closes) t = 0 := by
      rw [hL] at h
      exact Option.some.inj h
    unfold rsiAt
    rw [hG, hL, hl0]
    simp
  · exfalso
    unfold avgLoss at h
    rw [if_neg hc] at h
    cases h

/-- Claim C7 (amended): every defined value of the `rsi` column lies in
[0, 100]; a row with `avg_loss == 0` gets `rsi = 100`; and a row with
`avg_gain == 0` gets `rsi = 0` provided `avg_loss ≠ 0` (when both averages
are zero the later `avg_loss == 0` override wins and the row gets 100, see
the counterexample `rsi_gain_rule_overridden`). -/
theorem rsi_bounds_and_edge_rules (period : ℕ) (hp : 1 ≤ period)
    (closes : List ℚ) (t : ℕ) :
    (∀ x, rsiAt period closes t = some x → 0 ≤ x ∧ x ≤ 100) ∧
    (avgLoss period closes t = some 0 → rsiAt period closes t = some 100) ∧
    (∀ l, avgGain period closes t = some 0 → avgLoss period closes t = some l →
      l ≠ 0 → rsiAt period closes t = some 0) := by
  have hg : ∀ x ∈ gainCol closes, (0 : ℚ) ≤ x := by
    intro x hx
    unfold gainCol at hx
    obtain ⟨j, _, rfl⟩ := List.mem_map.mp hx
    exact gainAt_nonneg closes j
  have hl : ∀ x ∈ lossCol closes, (0 : ℚ) ≤ x := by
    intro x hx
    unfold lossCol at hx
    obtain ⟨j, _, rfl⟩ := List.mem_map.mp hx
    exact lossAt_nonneg closes j
  by_cases hc : period ≤ t + 1 ∧ t < closes.length
  · have hG : avgGain period closes t = some (ewmAdjMean period (gainCol closes) t) := by
      unfold avgGain
      rw [if_pos hc]
    have hL : avgLoss period closes t = some (ewmAdjMean period (lossCol closes) t) := by
      unfold avgLoss
      rw [if_pos hc]
    set g := ewmAdjMean period (gainCol closes) t with hgdef
    set l := ewmAdjMean period (lossCol closes) t with hldef
    have hg0 : 0 ≤ g := ewmAdjMean_nonneg period hp _ hg t
    have hl0 : 0 ≤ l := ewmAdjMean_nonneg period hp _ hl t
    have hrsi : rsiAt period closes t =
        some (if l = 0 then 100 else if g = 0 then 0 else 100 - 100 / (1 + g / l)) := by
      unfold rsiAt
      rw [hG, hL]
      by_cases hlz : l = 0
      · simp [hlz]
      · simp only [if_neg hlz]
    refine ⟨?_, ?_, ?_⟩
    · intro x hx
      rw [hrsi] at hx
      have hx2 := Option.some.inj hx
      subst hx2
      by_cases hlz : l = 0
      · rw [if_pos hlz]
        norm_num
      · rw [if_neg hlz]
        by_cases hgz : g = 0
        · rw [if_pos hgz]
          norm_num
        · rw [if_neg hgz]
          have hlpos : 0 < l := lt_of_le_of_ne hl0 (Ne.symm hlz)
          have hgl : 0 ≤ g / l := div_nonneg hg0 (le_of_lt hlpos)
          have h1 : (0 : ℚ) < 1 + g / l := by linarith
          constructor
          · have : 100 / (1 + g / l) ≤ 100 := by
              apply div_le_self (by norm_num)
              linarith
            linarith
          · have : 0 ≤ 100 / (1 + g / l) := by positivity
            linarith
    · intro hzero
      rw [hL] at hzero
      have hlz : l = 0 := Option.some.inj hzero
      rw [hrsi, if_pos hlz]
    · intro l0 hgz hlz hne
      rw [hG] at hgz
      rw [hL] at hlz
      have hge : g = 0 := Option.some.inj hgz
      have hle2 : l = l0 := Option.some.inj hlz
      have hlnz : l ≠ 0 := by
        rw [hle2]
        exact hne
      rw [hrsi, if_neg hlnz, if_pos hge]
  · have hG : avgGain period closes t = none := by
      unfold avgGain
      rw [if_neg hc]
    have hL : avgLoss period closes t = none := by
      unfold avgLoss
      rw [if_neg hc]
    have hrsi : rsiAt period closes t = none := by
      unfold rsiAt
      rw [hG, hL]
    refine ⟨?_, ?_, ?_⟩
    · intro x hx
      rw [hrsi] at hx
      exact absurd hx (by simp)
    · intro hx
      rw [hL] at hx
      exact absurd hx (by simp)
    · intro l0 hx
      rw [hG] at hx
      exact absurd hx (by simp)

/-- Witness for C7 on a strictly falling two-bar series with period 2:
`avg_gain = 0`, `avg_loss = 3/4 ≠ 0`, so row 1 gets `rsi = 0`, and the
bound rule holds there too. -/
theorem rsi_bounds_and_edge_rules_witness :
    (0 ≤ (0 : ℚ) ∧ (0 : ℚ) ≤ 100) ∧ rsiAt 2 [2, 1] 1 = some 0 := by
  have hgain : avgGain 2 [(2 : ℚ), 1] 1 = some 0 := by
    unfold avgGain ewmAdjMean gainCol gainAt diffAt
    norm_num [Finset.sum_range_succ]
  have hloss : avgLoss 2 [(2 : ℚ), 1] 1 = some (3/4) := by
    unfold avgLoss ewmAdjMean lossCol lossAt diffAt
    norm_num [Finset.sum_range_succ]
  have h := (rsi_bounds_and_edge_rules 2 (by norm_num) [(2 : ℚ), 1] 1).2.2 (3/4)
    hgain hloss (by norm_num)
  exact ⟨(rsi_bounds_and_edge_rules 2 (by norm_num) [(2 : ℚ), 1] 1).1 0 h, h⟩

/-- Counterexample for C7 as stated: on a flat series a warm row has
`avg_gain = 0` but `rsi = 100`, not 0 — the `avg_loss == 0` override is
applied after the `avg_gain == 0` override. -/
theorem rsi_gain_rule_overridden :
    avgGain 2 [(1 : ℚ), 1, 1] 1 = some 0 ∧ rsiAt 2 [(1 : ℚ), 1, 1] 1 = some 100 ∧
      (100 : ℚ) ≠ 0 := by
  refine ⟨?_, ?_, by norm_num⟩
  · unfold avgGain ewmAdjMean gainCol gainAt diffAt
    norm_num [Finset.sum_range_succ]
  · unfold rsiAt avgGain avgLoss ewmAdjMean gainCol gainAt lossCol lossAt diffAt
    norm_num [Finset.sum_range_succ]

/-- Claim C8: on an all-flat (constant close) series both averages are
zero and the `avg_loss == 0` rule, applied last, gives every
warm-up-complete row `rsi = 100`. -/
theorem rsi_flat_series (period : ℕ) (hp : 1 ≤ period) (n : ℕ) (c : ℚ) (t : ℕ)
    (hwarm : period ≤ t + 1) (ht : t < n) :
    rsiAt period (List.replicate n c) t = some 100 := by
  have hzero : ∀ j, (lossCol (List.replicate n c)).getD j 0 = 0 := by
    intro j
    rcases Nat.lt_or_ge j (lossCol (List.replicate n c)).length with hj | hj
    · rw [List.getD_eq_getElem _ 0 hj]
      have hjlen : j < n := by
        simpa [lossCol] using hj
      have : (lossCol (List.replicate n c))[j] = lossAt (List.replicate n c) j := by
        simp [lossCol]
      rw [this]
      unfold lossAt diffAt
      rcases Nat.eq_zero_or_pos j with hj0 | hj0
      · simp [hj0]
      · have hne : j ≠ 0 := Nat.pos_iff_ne_zero.mp hj0
        simp only [if_neg hne]
        have e1 : (List.replicate n c).getD j 0 = c := by
          rw [List.getD_eq_getElem _ 0 (by simpa using hjlen)]
          simp
        have e2 : (List.replicate n c).getD (j - 1) 0 = c := by
          rw [List.getD_eq_getElem _ 0 (by simp; omega)]
          simp
        rw [e1, e2]
        norm_num
    · rw [List.getD_eq_default _ 0 hj]
  have hcond : period ≤ t + 1 ∧ t < (List.replicate n c).length := by
    constructor
    · exact hwarm
    · simpa using ht
  have hL : avgLoss period (List.replicate n c) t = some 0 := by
    unfold avgLoss
    rw [if_pos hcond, ewmAdjMean_zero period _ hzero t]
  exact rsiAt_of_avgLoss_zero period (List.replicate n c) t hL

/-- Witness for C8: a five-bar constant series with period 2, row 3. -/
theorem rsi_flat_series_witness :
    rsiAt 2 (List.replicate 5 (7 : ℚ)) 3 = some 100 :=
  rsi_flat_series 2 (by norm_num) 5 7 3 (by norm_num) (by norm_num)


/-- Claim C6: every value of the `bb_percent_b` column produced by
`BollingerBands.calculate` lies in [0, 1], and rows where the upper and
lower bands collapse to zero width receive the defined fallback 0.5 (the
hypothesis ties the std column to the rolling variance, as the real square
root does; the bound itself is enforced by the final clamp for any std
column). -/
theorem bbPercentB_bounds (period : ℕ) (numStd : ℚ) (closes : List ℚ)
    (std : ℕ → Option ℚ)
    (hstd : ∀ t < closes.length, ∀ s, std t = some s →
      0 ≤ s ∧ s * s = rollingVariance period closes t) (t : ℕ) :
    0 ≤ bbPercentB period numStd closes std t ∧
      bbPercentB period numStd closes std t ≤ 1 ∧
      (bbDiff period numStd closes std t = some 0 →
        bbPercentB period numStd closes std t = 1/2) := by
  unfold bbPercentB bbDiff bbUpper bbLower
  cases hs : std t with
  | none =>
      refine ⟨by norm_num, by norm_num, ?_⟩
      intro h
      norm_num
  | some s =>
      simp only [Option.map_some]
      set m := bbMiddle period closes t
      set d := m + s * numStd - (m - s * numStd) with hd
      by_cases hdz : d = 0
      · rw [if_pos hdz]
        refine ⟨by norm_num, by norm_num, fun _ => rfl⟩
      · rw [if_neg hdz]
        refine ⟨le_max_left _ _, ?_, ?_⟩
        · exact max_le (by norm_num) (min_le_left _ _)
        · intro h
          exact absurd (Option.some.inj h) hdz

/-- Witness for C6: a constant three-bar series whose rolling variance is
0, with the std column the real square root produces there (`none` at row
0, 0 afterwards); row 1 has collapsed bands and `%B = 0.5`. -/
theorem bbPercentB_bounds_witness :
    (0 ≤ bbPercentB 2 2 [1, 1, 1] (fun t => if t = 0 then none else some 0) 1 ∧
      bbPercentB 2 2 [1, 1, 1] (fun t => if t = 0 then none else some 0) 1 ≤ 1 ∧
      (bbDiff 2 2 [1, 1, 1] (fun t => if t = 0 then none else some 0) 1 = some 0 →
        bbPercentB 2 2 [1, 1, 1] (fun t => if t = 0 then none else some 0) 1 = 1/2)) ∧
    bbPercentB 2 2 [1, 1, 1] (fun t => if t = 0 then none else some 0) 1 = 1/2 := by
  have hstd : ∀ t < List.length [(1 : ℚ), 1, 1], ∀ s,
      (fun t => if t = 0 then (none : Option ℚ) else some 0) t = some s →
      0 ≤ s ∧ s * s = rollingVariance 2 [1, 1, 1] t := by
    intro t ht s hs
    have ht3 : t < 3 := by simpa using ht
    interval_cases t
    · simp at hs
    · simp only [if_neg (by norm_num : (1 : ℕ) ≠ 0)] at hs
      have hs2 : s = 0 := (Option.some.inj hs).symm
      subst hs2
      refine ⟨le_refl 0, ?_⟩
      norm_num [rollingVariance, rollingWindow, listMean]
    · simp only [if_neg (by norm_num : (2 : ℕ) ≠ 0)] at hs
      have hs2 : s = 0 := (Option.some.inj hs).symm
      subst hs2
      refine ⟨le_refl 0, ?_⟩
      norm_num [rollingVariance, rollingWindow, listMean]
  have h := bbPercentB_bounds 2 2 [1, 1, 1] (fun t => if t = 0 then none else some 0) hstd 1
  refine ⟨h, h.2.2 ?_⟩
  simp only [bbDiff, bbUpper, bbLower, if_neg (by norm_num : (1 : ℕ) ≠ 0), Option.map_some]
  norm_num


/-- Every row's bin lies in `[0, n_bins - 1]` (the clip guarantees it). -/
theorem binOf_mem_range (f : Frame) (nBins : ℕ) (hn : 1 ≤ nBins) (b : Bar) :
    0 ≤ binOf f nBins b ∧ binOf f nBins b ≤ (nBins : ℤ) - 1 := by
  unfold binOf
  constructor
  · exact le_max_left _ _
  · apply max_le
    · have : (1 : ℤ) ≤ (nBins : ℤ) := by exact_mod_cast hn
      omega
    · exact min_le_left _ _

/-- Bins hold nonnegative volume when the frame's volumes are
nonnegative. -/
theorem binVolume_nonneg (f : Frame) (nBins : ℕ) (hvol : ∀ b ∈ f, 0 ≤ b.volume) (i : ℤ) :
    0 ≤ binVolume f nBins i := by
  unfold binVolume binVolumeAux
  apply List.sum_nonneg
  intro x hx
  obtain ⟨b, hb, rfl⟩ := List.mem_map.mp hx
  split
  · exact hvol b hb
  · exact le_refl 0

/-- A bin index outside `[0, n_bins - 1]` holds no volume. -/
theorem binVolume_out_of_range (f : Frame) (nBins : ℕ) (hn : 1 ≤ nBins) (i : ℤ)
    (hi : i < 0 ∨ (nBins : ℤ) - 1 < i) : binVolume f nBins i = 0 := by
  unfold binVolume binVolumeAux
  apply List.sum_eq_zero
  intro x hx
  obtain ⟨b, hb, rfl⟩ := List.mem_map.mp hx
  have hmem := binOf_mem_range f nBins hn b
  rw [if_neg (by omega)]

/-- Mass conservation: the total volume equals the sum of the bin volumes
over `0 .. n_bins - 1` (every row lands in exactly one bin). -/
theorem totalVolume_eq_sum_bins (f : Frame) (nBins : ℕ) (hn : 1 ≤ nBins) :
    totalVolume f = (Finset.Icc 0 ((nBins : ℤ) - 1)).sum (binVolume f nBins) := by
  unfold totalVolume binVolume
  have key : ∀ l : List Bar, (∀ b ∈ l, b ∈ f) →
      (l.map Bar.volume).sum = (Finset.Icc 0 ((nBins : ℤ) - 1)).sum (binVolumeAux f nBins l) := by
    intro l
    induction l with
    | nil => intro _; simp [binVolumeAux]
    | cons b l ih =>
        intro hsub
        have hb : b ∈ f := hsub b (List.mem_cons_self b l)
        have ihl := ih fun x hx => hsub x (List.mem_cons_of_mem b hx)
        have hcons : ∀ i, binVolumeAux f nBins (b :: l) i =
            (if binOf f nBins b = i then b.volume else 0) + binVolumeAux f nBins l i := by
          intro i
          unfold binVolumeAux
          simp
        simp only [List.map_cons, List.sum_cons, hcons, Finset.sum_add_distrib, ihl]
        congr 1
        have hmem := binOf_mem_range f nBins hn b
        rw [Finset.sum_ite_eq (Finset.Icc 0 ((nBins : ℤ) - 1)) (binOf f nBins b)
          fun _ => b.volume]
        rw [if_pos (Finset.mem_Icc.mpr ⟨hmem.1, hmem.2⟩)]
    
  exact key f fun _ hx => hx

/-- Each mapped bin volume is bounded by the folded maximum. -/
theorem le_foldr_max (l : List ℚ) (x : ℚ) (hx : x ∈ l) : x ≤ l.foldr max 0 := by
  induction l with
  | nil => cases hx
  | cons y l ih =>
      rcases List.mem_cons.mp hx with rfl | hx2
      · exact le_max_left _ _
      · exact le_trans (ih hx2) (le_max_right _ _)

/-- The folded maximum is 0 or attained by a list element. -/
theorem foldr_max_mem (l : List ℚ) : l.foldr max 0 = 0 ∨ l.foldr max 0 ∈ l := by
  induction l with
  | nil => exact Or.inl rfl
  | cons y l ih =>
      rcases max_choice y (l.foldr max 0) with h | h
      · exact Or.inr (by rw [List.foldr_cons, h]; exact List.mem_cons_self y l)
      · rcases ih with h0 | hmem
        · exact Or.inl (by rw [List.foldr_cons, h, h0])
        · exact Or.inr (by rw [List.foldr_cons, h]; exact List.mem_cons_of_mem y hmem)

/-- Membership in `binIndices`. -/
theorem mem_binIndices (nBins : ℕ) (i : ℤ) :
    i ∈ binIndices nBins ↔ 0 ≤ i ∧ i ≤ (nBins : ℤ) - 1 := by
  unfold binIndices
  rw [List.mem_map]
  constructor
  · rintro ⟨j, hj, rfl⟩
    have hjn := List.mem_range.mp hj
    simp only [Int.ofNat_eq_natCast]
    omega
  · intro ⟨h0, h1⟩
    refine ⟨i.toNat, List.mem_range.mpr (by omega), ?_⟩
    simp only [Int.ofNat_eq_natCast]
    omega

/-- The head of a nonempty list with a default is a member. -/
theorem headD_mem (l : List ℤ) (d : ℤ) (h : l ≠ []) : l.headD d ∈ l := by
  cases l with
  | nil => exact absurd rfl h
  | cons x l =>
      rw [List.headD_cons]
      exact List.mem_cons_self x l

/-- With nonnegative volumes and positive total volume the POC bin is a
valid bin attaining the maximal bin volume (which is positive). -/
theorem pocBin_spec (f : Frame) (nBins : ℕ) (hn : 1 ≤ nBins)
    (hvol : ∀ b ∈ f, 0 ≤ b.volume) (htot : 0 < totalVolume f) :
    (0 ≤ pocBin f nBins ∧ pocBin f nBins ≤ (nBins : ℤ) - 1) ∧
      binVolume f nBins (pocBin f nBins) = maxBinVolume f nBins ∧
      0 < maxBinVolume f nBins := by
  have hpos : 0 < maxBinVolume f nBins := by
    rw [totalVolume_eq_sum_bins f nBins hn] at htot
    have hex : ∃ i ∈ Finset.Icc 0 ((nBins : ℤ) - 1), 0 < binVolume f nBins i := by
      by_contra hall
      push_neg at hall
      have : (Finset.Icc 0 ((nBins : ℤ) - 1)).sum (binVolume f nBins) ≤ 0 :=
        Finset.sum_nonpos hall
      linarith
    obtain ⟨i, hi, hipos⟩ := hex
    have hmem : binVolume f nBins i ∈ (binIndices nBins).map (binVolume f nBins) := by
      refine List.mem_map.mpr ⟨i, ?_, rfl⟩
      rw [mem_binIndices]
      exact Finset.mem_Icc.mp hi
    exact lt_of_lt_of_le hipos (le_foldr_max _ _ hmem)
  have hattain : maxBinVolume f nBins ∈ (binIndices nBins).map (binVolume f nBins) := by
    rcases foldr_max_mem ((binIndices nBins).map (binVolume f nBins)) with h0 | hmem
    · rw [maxBinVolume] at hpos
      rw [h0] at hpos
      exact absurd hpos (lt_irrefl 0)
    · exact hmem
  obtain ⟨i, hi, hieq⟩ := List.mem_map.mp hattain
  have hfilter : (binIndices nBins).filter
      (fun j => decide (binVolume f nBins j = maxBinVolume f nBins)) ≠ [] := by
    intro hnil
    have : i ∈ (binIndices nBins).filter
        (fun j => decide (binVolume f nBins j = maxBinVolume f nBins)) :=
      List.mem_filter.mpr ⟨hi, by rw [hieq]; exact decide_eq_true rfl⟩
    rw [hnil] at this
    cases this
  have hhead := headD_mem _ 0 hfilter
  have hmem2 := List.mem_filter.mp hhead
  refine ⟨(mem_binIndices nBins _).mp hmem2.1, of_decide_eq_true hmem2.2, hpos⟩


/-- The value-area loop maintains `vaInv` whenever the fuel dominates the
remaining expansion room. -/
theorem vaLoop_spec (f : Frame) (nBins : ℕ) (hn : 1 ≤ nBins)
    (hvol : ∀ b ∈ f, 0 ≤ b.volume) (target : ℚ) :
    ∀ (fuel : ℕ) (above below : ℤ) (s : ℚ),
      0 ≤ below → below ≤ above → above ≤ (nBins : ℤ) - 1 →
      (nBins : ℤ) - 1 - above + below ≤ (fuel : ℤ) →
      s = (Finset.Icc below above).sum (binVolume f nBins) →
      vaInv f nBins target above below (vaLoop f nBins target fuel above below s) := by
  intro fuel
  induction fuel with
  | zero =>
      intro above below s h0 hba han hfuel hs
      have ha : above = (nBins : ℤ) - 1 := by
        simp only [Nat.cast_zero] at hfuel
        omega
      have hb : below = 0 := by
        simp only [Nat.cast_zero] at hfuel
        omega
      simp only [vaLoop]
      refine ⟨⟨le_refl _, le_refl _⟩, ⟨h0, hba, han⟩, hs, Or.inr ⟨hb, ?_⟩⟩
      exact binVolume_out_of_range f nBins hn _ (by omega)
  | succ fuel ih =>
      intro above below s h0 hba han hfuel hs
      simp only [vaLoop]
      by_cases hst : s < target
      · rw [if_pos hst]
        by_cases hup : binVolume f nBins (below - 1) < binVolume f nBins (above + 1) ∧
            above + 1 < (nBins : ℤ)
        · rw [if_pos hup]
          have hsum : s + binVolume f nBins (above + 1) =
              (Finset.Icc below (above + 1)).sum (binVolume f nBins) := by
            have hset : Finset.Icc below (above + 1) =
                insert (above + 1) (Finset.Icc below above) := by
              ext x
              simp only [Finset.mem_Icc, Finset.mem_insert]
              omega
            rw [hset, Finset.sum_insert (by simp only [Finset.mem_Icc]; omega), hs]
            ring
          have H := ih (above + 1) below (s + binVolume f nBins (above + 1))
            h0 (by omega) (by omega) (by push_cast at hfuel ⊢; omega) hsum
          exact ⟨⟨H.1.1, le_trans (by omega) H.1.2⟩, H.2⟩
        · rw [if_neg hup]
          by_cases hdown : 0 ≤ below - 1
          · rw [if_pos hdown]
            have hsum : s + binVolume f nBins (below - 1) =
                (Finset.Icc (below - 1) above).sum (binVolume f nBins) := by
              have hset : Finset.Icc (below - 1) above =
                  insert (below - 1) (Finset.Icc below above) := by
                ext x
                simp only [Finset.mem_Icc, Finset.mem_insert]
                omega
              rw [hset, Finset.sum_insert (by simp only [Finset.mem_Icc]; omega), hs]
              ring
            have H := ih above (below - 1) (s + binVolume f nBins (below - 1))
              hdown (by omega) han (by push_cast at hfuel ⊢; omega) hsum
            exact ⟨⟨le_trans H.1.1 (by omega), H.1.2⟩, H.2⟩
          · rw [if_neg hdown]
            have hb : below = 0 := by omega
            have hvb : binVolume f nBins (below - 1) = 0 :=
              binVolume_out_of_range f nBins hn _ (by omega)
            have hva : binVolume f nBins (above + 1) = 0 := by
              by_cases hlt : above + 1 < (nBins : ℤ)
              · have hle : binVolume f nBins (above + 1) ≤ binVolume f nBins (below - 1) := by
                  by_contra hc
                  push_neg at hc
                  exact hup ⟨hc, hlt⟩
                have hge : 0 ≤ binVolume f nBins (above + 1) :=
                  binVolume_nonneg f nBins hvol _
                rw [hvb] at hle
                linarith
              · exact binVolume_out_of_range f nBins hn _ (by omega)
            exact ⟨⟨le_refl _, le_refl _⟩, ⟨h0, hba, han⟩, hs, Or.inr ⟨hb, hva⟩⟩
      · rw [if_neg hst]
        push_neg at hst
        exact ⟨⟨le_refl _, le_refl _⟩, ⟨h0, hba, han⟩, hs, Or.inl hst⟩

/-- Claim C5 (amended): on every frame with nonnegative volumes and
positive total volume the Value Area always contains the POC bin, its
`volume_sum` is exactly the volume enclosed by its bins, and either it
encloses at least 70% of the total volume or the expansion loop broke
early — which happens only with the lower edge already at bin 0 and no
volume in the bin above the upper edge (expansion moves up only when the
upper candidate holds strictly more volume than the lower one, and down
only while bin 0 has not been passed).  The 70% guarantee of the claim as
stated fails on such early breaks, see `valueArea_below_seventy`. -/
theorem valueArea_spec (f : Frame) (nBins : ℕ) (hn : 1 ≤ nBins)
    (hvol : ∀ b ∈ f, 0 ≤ b.volume) (htot : 0 < totalVolume f) :
    ((valueArea f nBins).2.1 ≤ pocBin f nBins ∧
        pocBin f nBins ≤ (valueArea f nBins).1) ∧
      (valueArea f nBins).2.2 =
        (Finset.Icc (valueArea f nBins).2.1 (valueArea f nBins).1).sum
          (binVolume f nBins) ∧
      (7/10 * totalVolume f ≤ (valueArea f nBins).2.2 ∨
        ((valueArea f nBins).2.1 = 0 ∧
          binVolume f nBins ((valueArea f nBins).1 + 1) = 0)) := by
  obtain ⟨⟨hp0, hp1⟩, hpmax, hmaxpos⟩ := pocBin_spec f nBins hn hvol htot
  have hs : binVolume f nBins (pocBin f nBins) =
      (Finset.Icc (pocBin f nBins) (pocBin f nBins)).sum (binVolume f nBins) := by
    rw [Finset.Icc_self, Finset.sum_singleton]
  have H := vaLoop_spec f nBins hn hvol (7/10 * totalVolume f) nBins
    (pocBin f nBins) (pocBin f nBins) (binVolume f nBins (pocBin f nBins))
    hp0 (le_refl _) hp1 (by push_cast; omega) hs
  unfold valueArea
  exact ⟨⟨H.1.1, H.1.2⟩, H.2.2.1, H.2.2.2⟩


/-- Concrete evaluation of the counterexample frame: total volume 19, POC
bin 0, and the expansion loop breaks immediately (bin 1 holds no volume
and bin -1 is out of range), leaving the value area at the single bin 0
with volume 10. -/
theorem vaFrameC_eval :
    totalVolume vaFrameC = 19 ∧ valueArea vaFrameC 4 = (0, 0, 10) ∧
      binVolume vaFrameC 4 0 = 10 := by
  have hlow : priceLow vaFrameC = 0 := by
    norm_num [priceLow, vaFrameC]
  have hhigh : priceHigh vaFrameC = 4 := by
    norm_num [priceHigh, vaFrameC]
  have hbs : binSize vaFrameC 4 = 1 := by
    rw [binSize, priceRangeAdj, hlow, hhigh]
    norm_num
  have hfl1 : ⌊(1/2 : ℚ)⌋ = 0 := by
    rw [Int.floor_eq_iff]
    norm_num
  have hfl2 : ⌊(7/2 : ℚ)⌋ = 3 := by
    rw [Int.floor_eq_iff]
    norm_num
  have hbin1 : binOf vaFrameC 4 ⟨4, 0, 1/2, 10⟩ = 0 := by
    rw [binOf, hbs, hlow]
    norm_num [ratTrunc, hfl1]
  have hbin2 : binOf vaFrameC 4 ⟨4, 0, 7/2, 9⟩ = 3 := by
    rw [binOf, hbs, hlow]
    norm_num [ratTrunc, hfl2]
  have hbin1G : binOf [(⟨4, 0, 1/2, 10⟩ : Bar), ⟨4, 0, 7/2, 9⟩] 4 ⟨4, 0, 1/2, 10⟩ = 0 :=
    hbin1
  have hbin2G : binOf [(⟨4, 0, 1/2, 10⟩ : Bar), ⟨4, 0, 7/2, 9⟩] 4 ⟨4, 0, 7/2, 9⟩ = 3 :=
    hbin2
  have hbv : ∀ i : ℤ, binVolume vaFrameC 4 i =
      (if (0 : ℤ) = i then (10 : ℚ) else 0) + ((if (3 : ℤ) = i then (9 : ℚ) else 0) + 0) := by
    intro i
    unfold binVolume binVolumeAux vaFrameC
    rw [List.map_cons, List.map_cons, List.map_nil, List.sum_cons, List.sum_cons,
      List.sum_nil, hbin1G, hbin2G]
  have h0 : binVolume vaFrameC 4 0 = 10 := by rw [hbv]; norm_num
  have h1 : binVolume vaFrameC 4 1 = 0 := by rw [hbv]; norm_num
  have hm1 : binVolume vaFrameC 4 (-1) = 0 := by rw [hbv]; norm_num
  have h2 : binVolume vaFrameC 4 2 = 0 := by rw [hbv]; norm_num
  have h3 : binVolume vaFrameC 4 3 = 9 := by rw [hbv]; norm_num
  have htot : totalVolume vaFrameC = 19 := by
    norm_num [totalVolume, vaFrameC]
  have hbi : binIndices 4 = [0, 1, 2, 3] := by decide
  have hmax : maxBinVolume vaFrameC 4 = 10 := by
    rw [maxBinVolume, hbi]
    rw [List.map_cons, List.map_cons, List.map_cons, List.map_cons, List.map_nil,
      h0, h1, h2, h3]
    norm_num [max_def]
  have hpoc : pocBin vaFrameC 4 = 0 := by
    rw [pocBin, hbi, hmax]
    rw [List.filter_cons, List.filter_cons, List.filter_cons, List.filter_cons]
    rw [h0, h1, h2, h3]
    norm_num
  refine ⟨htot, ?_, h0⟩
  simp only [valueArea]
  rw [hpoc, htot, h0]
  have hstep : vaLoop vaFrameC 4 (7/10 * 19) 4 0 0 10 =
      vaLoop vaFrameC 4 (7/10 * 19) (3 + 1) 0 0 10 := rfl
  rw [hstep]
  simp only [vaLoop]
  rw [if_pos (by norm_num : (10 : ℚ) < 7/10 * 19)]
  rw [if_neg ?hc1, if_neg ?hc2]
  case hc1 =>
    intro hcon
    have := hcon.1
    rw [show (0 : ℤ) - 1 = -1 by norm_num, show (0 : ℤ) + 1 = 1 by norm_num, hm1, h1] at this
    exact absurd this (lt_irrefl 0)
  case hc2 =>
    norm_num

/-- Counterexample for C5 as stated: on `vaFrameC` (positive total volume
19, nonnegative volumes) the value area is the single POC bin, enclosing
only 10 < 0.7 * 19 of the volume — the loop breaks below the 70% target
because the bin above the POC is empty and bin -1 is out of range. -/
theorem valueArea_below_seventy :
    (∀ b ∈ vaFrameC, 0 ≤ b.volume) ∧ 0 < totalVolume vaFrameC ∧
      (Finset.Icc (valueArea vaFrameC 4).2.1 (valueArea vaFrameC 4).1).sum
        (binVolume vaFrameC 4) < 7/10 * totalVolume vaFrameC := by
  obtain ⟨htot, hva, h0⟩ := vaFrameC_eval
  refine ⟨?_, ?_, ?_⟩
  · intro b hb
    rw [vaFrameC, List.mem_cons, List.mem_cons] at hb
    rcases hb with rfl | rfl | hb
    · norm_num
    · norm_num
    · cases hb
  · rw [htot]
    norm_num
  · rw [hva, htot]
    show (Finset.Icc (0 : ℤ) 0).sum (binVolume vaFrameC 4) < 7/10 * 19
    rw [Finset.Icc_self, Finset.sum_singleton, h0]
    norm_num


/-- Witness for the amended C5 on the concrete frame `vaFrameC` (there the
early-break disjunct holds). -/
theorem valueArea_spec_witness :
    ((1 : ℕ) ≤ 4 ∧ 0 < totalVolume vaFrameC) ∧
    (((valueArea vaFrameC 4).2.1 ≤ pocBin vaFrameC 4 ∧
        pocBin vaFrameC 4 ≤ (valueArea vaFrameC 4).1) ∧
      (valueArea vaFrameC 4).2.2 =
        (Finset.Icc (valueArea vaFrameC 4).2.1 (valueArea vaFrameC 4).1).sum
          (binVolume vaFrameC 4) ∧
      (7/10 * totalVolume vaFrameC ≤ (valueArea vaFrameC 4).2.2 ∨
        ((valueArea vaFrameC 4).2.1 = 0 ∧
          binVolume vaFrameC 4 ((valueArea vaFrameC 4).1 + 1) = 0))) := by
  have hvol : ∀ b ∈ vaFrameC, 0 ≤ b.volume := by
    intro b hb
    rw [vaFrameC, List.mem_cons, List.mem_cons] at hb
    rcases hb with rfl | rfl | hb
    · norm_num
    · norm_num
    · cases hb
  have htot : 0 < totalVolume vaFrameC := by
    rw [vaFrameC_eval.1]
    norm_num
  exact ⟨⟨by norm_num, htot⟩, valueArea_spec vaFrameC 4 (by norm_num) hvol htot⟩



/-- Claim C3 (amended): on every non-empty input `analyze_spot` emits its
(always `spot_buy`-typed) signal with the entry price equal to the latest
close of the selected price timeframe, `stop_loss = entry - 2 * atr` and
`take_profit = entry + 3 * atr` for the weighted ATR; hence
`take_profit > entry > stop_loss` holds exactly when that ATR is positive.
No positivity or epsilon guard exists, no expected return is computed and
no validation error is raised — see `analyzeSpot_no_guard` for a
successful run with `take_profit = entry = stop_loss`. -/
theorem analyzeSpotPrices_spec (d : TimeframeData)
    (hav : availableTimeframes d ≠ []) :
    analyzeSpotPrices d = some (spotLatestPrice d,
        spotLatestPrice d - weightedAtr d * 2,
        spotLatestPrice d + weightedAtr d * 3) ∧
      (0 < weightedAtr d →
        spotLatestPrice d - weightedAtr d * 2 < spotLatestPrice d ∧
          spotLatestPrice d < spotLatestPrice d + weightedAtr d * 3) := by
  refine ⟨?_, fun hw => ⟨by linarith, by linarith⟩⟩
  unfold analyzeSpotPrices
  rw [if_neg hav]


/-- Witness for the amended C3: a one-bar 6h frame is a non-empty input. -/
theorem analyzeSpotPrices_spec_witness :
    availableTimeframes ⟨some [(⟨2, 1, 3/2, 5⟩ : Bar)], none⟩ ≠ [] ∧
    (analyzeSpotPrices ⟨some [(⟨2, 1, 3/2, 5⟩ : Bar)], none⟩ =
        some (spotLatestPrice ⟨some [(⟨2, 1, 3/2, 5⟩ : Bar)], none⟩,
          spotLatestPrice ⟨some [(⟨2, 1, 3/2, 5⟩ : Bar)], none⟩ -
            weightedAtr ⟨some [(⟨2, 1, 3/2, 5⟩ : Bar)], none⟩ * 2,
          spotLatestPrice ⟨some [(⟨2, 1, 3/2, 5⟩ : Bar)], none⟩ +
            weightedAtr ⟨some [(⟨2, 1, 3/2, 5⟩ : Bar)], none⟩ * 3) ∧
      (0 < weightedAtr ⟨some [(⟨2, 1, 3/2, 5⟩ : Bar)], none⟩ →
        spotLatestPrice ⟨some [(⟨2, 1, 3/2, 5⟩ : Bar)], none⟩ -
            weightedAtr ⟨some [(⟨2, 1, 3/2, 5⟩ : Bar)], none⟩ * 2 <
          spotLatestPrice ⟨some [(⟨2, 1, 3/2, 5⟩ : Bar)], none⟩ ∧
        spotLatestPrice ⟨some [(⟨2, 1, 3/2, 5⟩ : Bar)], none⟩ <
          spotLatestPrice ⟨some [(⟨2, 1, 3/2, 5⟩ : Bar)], none⟩ +
            weightedAtr ⟨some [(⟨2, 1, 3/2, 5⟩ : Bar)], none⟩ * 3)) :=
  ⟨by decide, analyzeSpotPrices_spec ⟨some [(⟨2, 1, 3/2, 5⟩ : Bar)], none⟩ (by decide)⟩

/-- Counterexample for C3 as stated: on the all-flat five-bar frame the
weighted ATR is 0, yet `analyze_spot` succeeds and emits entry = stop-loss
= take-profit = 1 — no `take_profit > entry > stop_loss`, and the
denominator `entry - stop_loss` is 0, below any epsilon, with no
validation error raised. -/
theorem analyzeSpot_no_guard :
    analyzeSpotPrices ⟨some flatFrame, none⟩ = some (1, 1, 1) ∧
      (1 : ℚ) - 1 < 1/10^5 := by
  have hTRzero : ∀ j,
      ((List.range flatFrame.length).map (trueRangeAt flatFrame)).getD j 0 = 0 := by
    intro j
    rcases Nat.lt_or_ge j (((List.range flatFrame.length).map (trueRangeAt flatFrame)).length)
      with hj | hj
    · rw [List.getD_eq_getElem _ _ hj]
      have hj5 : j < 5 := by simpa [flatFrame] using hj
      rw [List.getElem_map, List.getElem_range]
      interval_cases j <;>
        norm_num [trueRangeAt, flatFrame, List.getD_cons_zero, List.getD_cons_succ]
    · rw [List.getD_eq_default _ _ hj]
  have hatr : atrLast flatFrame = 0 := by
    unfold atrLast atrAt
    exact ewmAdjMean_zero 14 _ hTRzero _
  have hav : availableTimeframes ⟨some flatFrame, none⟩ = [Timeframe.hour6] := by
    simp [availableTimeframes]
  have hwa : weightedAtr ⟨some flatFrame, none⟩ = 0 := by
    unfold weightedAtr
    rw [hav]
    simp only [List.map_cons, List.map_nil, List.sum_cons, List.sum_nil, frameOf, hatr,
      zero_mul, add_zero]
    split
    · exact zero_div _
    · rfl
  have hlast : lastClose flatFrame = 1 := by
    norm_num [lastClose, flatFrame, List.getLastD]
  have hsel : spotLatestPrice ⟨some flatFrame, none⟩ = 1 := by
    unfold spotLatestPrice
    rw [hav]
    simp only [selectPriceTimeframe]
    rw [if_pos (by decide : Timeframe.hour6 ∈ [Timeframe.hour6])]
    simp only [frameOf]
    exact hlast
  unfold analyzeSpotPrices
  rw [hav, if_neg (by decide : ¬([Timeframe.hour6] = [])), hsel, hwa]
  norm_num


/-- Claim C10: on every non-empty frame on which `get_grid_parameters`
succeeds the returned `grid_number` is at least 4: both the
volatility-based count and the range-based cap are floored at 4 before the
final `min`. -/
theorem gridNumber_at_least_four (df : List GridRow) (h : df ≠ []) :
    4 ≤ (getGridParameters df).2.2 := by
  unfold getGridParameters
  exact le_min (le_max_right _ _) (le_max_right _ _)

/-- Witness for C10 on a concrete one-row frame. -/
theorem gridNumber_at_least_four_witness :
    4 ≤ (getGridParameters [⟨2, 1, 3/2, some 55, 1/10⟩]).2.2 :=
  gridNumber_at_least_four [⟨2, 1, 3/2, some 55, 1/10⟩] (List.cons_ne_nil _ _)

end Moon
